import Mathlib

/-!
Shallow embedding of the dirty-region frame synchronization and presentation
pipeline of `src/src/basilisk/video_esp32.cpp` (M5Tab-Macintosh), together with
theorems settling the specification claims about it.

The embedding keeps the names and control flow of the source.  Machine integers are
modelled as `Nat`, with an explicit `% 2 ^ 32` (resp. `% 2 ^ 16`) exactly where
the C code can overflow a `uint32` (resp. truncate into a `uint16`).  Global
mutable state becomes explicit state passing; the per-word atomic operations of
the source collapse to their sequential meaning, which is the behaviour of any
single interleaving point.
-/

namespace M5V

/-! ### Display / tiling constants (the `#define`s at the top of the file) -/

def MAC_SCREEN_WIDTH : Nat := 640
def MAC_SCREEN_HEIGHT : Nat := 360
def PIXEL_SCALE : Nat := 2
def DISPLAY_WIDTH : Nat := 1280
def DISPLAY_HEIGHT : Nat := 720
def TILE_WIDTH : Nat := 40
def TILE_HEIGHT : Nat := 40
def TILES_X : Nat := 16
def TILES_Y : Nat := 9
def TOTAL_TILES : Nat := TILES_X * TILES_Y
def STREAMING_ROW_COUNT : Nat := 8

/-- Embedding of `frame_buffer_size` as set in `VideoInit`:
`frame_buffer_size = MAC_SCREEN_WIDTH * MAC_SCREEN_HEIGHT;` (independent of the
depth: the buffer is sized for the 8-bit mode and shared by all depths). -/
def frame_buffer_size : Nat := MAC_SCREEN_WIDTH * MAC_SCREEN_HEIGHT

/-! ### Video depth and the video state cache -/

/-- Embedding of `video_depth` values used by this port (from `video_defs.h`). -/
inductive video_depth where
  | VDEPTH_1BIT
  | VDEPTH_2BIT
  | VDEPTH_4BIT
  | VDEPTH_8BIT
deriving DecidableEq, Repr

open video_depth

/-- The four `current_*` cache variables that `updateVideoStateCache` keeps in
sync with the active mode and that the dirty-marking code reads. -/
structure VideoCache where
  current_bytes_per_row : Nat
  current_pixels_per_byte : Nat
  current_bit_shift : Nat
  current_pixel_mask : Nat
deriving DecidableEq, Repr

/-- Embedding of `updateVideoStateCache(depth, bytes_per_row)`. -/
def updateVideoStateCache (depth : video_depth) (bytes_per_row : Nat) : VideoCache :=
  match depth with
  | VDEPTH_1BIT => ⟨bytes_per_row, 8, 7, 0x01⟩
  | VDEPTH_2BIT => ⟨bytes_per_row, 4, 6, 0x03⟩
  | VDEPTH_4BIT => ⟨bytes_per_row, 2, 4, 0x0F⟩
  | VDEPTH_8BIT => ⟨bytes_per_row, 1, 0, 0xFF⟩

/-- Bytes per row of each video mode registered by `VideoInit`.  The values are
the ones `VideoInit` records (`TrivialBytesPerRow(640, depth)`, a function of
the emulator core outside this repository): 80, 160, 320 and 640 bytes. -/
def modeBytesPerRow (depth : video_depth) : Nat :=
  match depth with
  | VDEPTH_1BIT => 80
  | VDEPTH_2BIT => 160
  | VDEPTH_4BIT => 320
  | VDEPTH_8BIT => 640

/-- The video state cache after switching to the mode of a given depth. -/
def cacheFor (depth : video_depth) : VideoCache :=
  updateVideoStateCache depth (modeBytesPerRow depth)

/-! ### Dirty tile bitmaps

`dirty_tiles` and `write_dirty_tiles` are arrays of `(TOTAL_TILES + 31) / 32 = 5`
`uint32` words.  We model such an array as a structure with the five words. -/

structure TileBitmap where
  w0 : Nat
  w1 : Nat
  w2 : Nat
  w3 : Nat
  w4 : Nat
deriving DecidableEq, Repr

/-- The all-zero bitmap (`memset(..., 0, ...)` in `VideoInit`). -/
def TileBitmap.zero : TileBitmap := ⟨0, 0, 0, 0, 0⟩

/-- The bitmap with every word set to `0xFFFFFFFF` (the full-redraw override in
`videoRenderTaskOptimized`). -/
def TileBitmap.ones : TileBitmap := ⟨0xFFFFFFFF, 0xFFFFFFFF, 0xFFFFFFFF, 0xFFFFFFFF, 0xFFFFFFFF⟩

/-- Word `i` of the bitmap array (reads out of the 5-word array bounds never
occur in the source; they are given the junk value 0 here). -/
def TileBitmap.get (bm : TileBitmap) (i : Nat) : Nat :=
  if i = 0 then bm.w0
  else if i = 1 then bm.w1
  else if i = 2 then bm.w2
  else if i = 3 then bm.w3
  else if i = 4 then bm.w4
  else 0

/-- Store `w` into word `i` of the bitmap array. -/
def TileBitmap.setWord (bm : TileBitmap) (i : Nat) (w : Nat) : TileBitmap :=
  if i = 0 then { bm with w0 := w }
  else if i = 1 then { bm with w1 := w }
  else if i = 2 then { bm with w2 := w }
  else if i = 3 then { bm with w3 := w }
  else if i = 4 then { bm with w4 := w }
  else bm

/-- Embedding of `bm[tile_idx / 32] |= 1u << (tile_idx % 32)` — the atomic-OR mark used by
both `VideoMarkDirtyOffset` and `VideoMarkDirtyRange`. -/
def setTileBit (bm : TileBitmap) (tile_idx : Nat) : TileBitmap :=
  bm.setWord (tile_idx / 32) (bm.get (tile_idx / 32) ||| (1 <<< (tile_idx % 32)))

/-- Embedding of `isTileDirty(tile_idx)`: `(bm[tile_idx / 32] & (1 << (tile_idx % 32))) != 0`. -/
def tileTest (bm : TileBitmap) (tile_idx : Nat) : Bool :=
  (bm.get (tile_idx / 32)).testBit (tile_idx % 32)

/-- Word-wise bitwise OR of two bitmaps (used to state the algebraic claims). -/
def orBM (a b : TileBitmap) : TileBitmap :=
  ⟨a.w0 ||| b.w0, a.w1 ||| b.w1, a.w2 ||| b.w2, a.w3 ||| b.w3, a.w4 ||| b.w4⟩

/-- The popcount loop of `collectWriteDirtyTiles`:
`while (bits) { count += (bits & 1); bits >>= 1; }`. -/
def popcount (n : Nat) : Nat :=
  if h : n = 0 then 0 else (n % 2) + popcount (n / 2)
decreasing_by
  exact Nat.div_lt_self (Nat.pos_of_ne_zero h) (by omega)

/-! ### The dirty-marking producer API -/

/-- Embedding of `VideoMarkDirtyOffset(offset)` acting on the `write_dirty_tiles` bitmap.
The `cache` argument carries the `current_bytes_per_row` /
`current_pixels_per_byte` globals the function reads. -/
def VideoMarkDirtyOffset (cache : VideoCache) (offset : Nat) (bm : TileBitmap) : TileBitmap :=
  if offset ≥ frame_buffer_size then bm else
  let bpr := cache.current_bytes_per_row
  let ppb := cache.current_pixels_per_byte
  let y := offset / bpr
  if y ≥ MAC_SCREEN_HEIGHT then bm else
  let byte_in_row := offset % bpr
  let pixel_start := byte_in_row * ppb
  let pixel_end := pixel_start + ppb - 1
  if pixel_start ≥ MAC_SCREEN_WIDTH then bm else
  let pixel_end := if pixel_end ≥ MAC_SCREEN_WIDTH then MAC_SCREEN_WIDTH - 1 else pixel_end
  let tile_x_start := pixel_start / TILE_WIDTH
  let tile_x_end := pixel_end / TILE_WIDTH
  let tile_y := y / TILE_HEIGHT
  -- for (tile_x = tile_x_start; tile_x <= tile_x_end; tile_x++)
  (List.range (tile_x_end + 1 - tile_x_start)).foldl (fun b i =>
    let tile_idx := tile_y * TILES_X + (tile_x_start + i)
    if tile_idx < TOTAL_TILES then setTileBit b tile_idx else b) bm

/-- Embedding of `VideoMarkDirtyRange(offset, size)` acting on the `write_dirty_tiles`
bitmap.  `offset` and `size` are `uint32`, so the two additions that can wrap
are reduced `% 2 ^ 32` (`offset + size` in the clamp test, and
`offset + size - 1`, which also underflows when both are zero). -/
def VideoMarkDirtyRange (cache : VideoCache) (offset size : Nat) (bm : TileBitmap) : TileBitmap :=
  if offset ≥ frame_buffer_size then bm else
  let size := if (offset + size) % 2 ^ 32 > frame_buffer_size then frame_buffer_size - offset else size
  let bpr := cache.current_bytes_per_row
  let ppb := cache.current_pixels_per_byte
  let last := (offset + size + (2 ^ 32 - 1)) % 2 ^ 32
  let start_y := offset / bpr
  let end_y := last / bpr
  if end_y = start_y ∧ size ≤ 4 then
    let bm := VideoMarkDirtyOffset cache offset bm
    if size > 1 then VideoMarkDirtyOffset cache (offset + size - 1) bm else bm
  else
  let start_byte_in_row := offset % bpr
  let end_byte_in_row := last % bpr
  let pixel_col_start := start_byte_in_row * ppb
  let pixel_col_end := (end_byte_in_row + 1) * ppb - 1
  let pixel_col_start := if end_y > start_y then 0 else pixel_col_start
  let pixel_col_end := if end_y > start_y then MAC_SCREEN_WIDTH - 1 else pixel_col_end
  let tile_x_start := pixel_col_start / TILE_WIDTH
  let tile_x_end := pixel_col_end / TILE_WIDTH
  let tile_x_end := if tile_x_end ≥ TILES_X then TILES_X - 1 else tile_x_end
  let tile_y_start := start_y / TILE_HEIGHT
  let tile_y_end := end_y / TILE_HEIGHT
  let tile_y_end := if tile_y_end ≥ TILES_Y then TILES_Y - 1 else tile_y_end
  -- for (tile_y = ...; tile_y <= tile_y_end; ...) for (tile_x = ...; ...)
  (List.range (tile_y_end + 1 - tile_y_start)).foldl (fun b j =>
    (List.range (tile_x_end + 1 - tile_x_start)).foldl (fun b i =>
      let tile_idx := (tile_y_start + j) * TILES_X + (tile_x_start + i)
      setTileBit b tile_idx) b) bm

/-- Embedding of `collectWriteDirtyTiles()`: for each of the five words, atomically exchange
the write-side word with zero, store the previous value into the render-side
word, and add its popcount to the running count.  The result is
`(new write_dirty_tiles, new dirty_tiles, count)`; the old render-side bitmap
is fully overwritten, so it does not appear as an argument. -/
def collectWriteDirtyTiles (write : TileBitmap) : TileBitmap × TileBitmap × Nat :=
  let bits0 := write.w0
  let bits1 := write.w1
  let bits2 := write.w2
  let bits3 := write.w3
  let bits4 := write.w4
  (TileBitmap.zero, ⟨bits0, bits1, bits2, bits3, bits4⟩,
    popcount bits0 + popcount bits1 + popcount bits2 + popcount bits3 + popcount bits4)

/-! ### Palette store and producer/consumer pipeline state -/

/-- Embedding of `rgb888_to_rgb565(r, g, b)`:
`((r >> 3) << 3 | (g >> 5)) | (((g >> 2) << 5 | (b >> 3)) << 8)` assigned to a
`uint16` — the assignment truncates the high green bits, which is what keeps
only the low 3 bits of the 6-bit green component. -/
def rgb888_to_rgb565 (r g b : Nat) : Nat :=
  ((((r >>> 3) <<< 3) ||| (g >>> 5)) ||| ((((g >>> 2) <<< 5) ||| (b >>> 3)) <<< 8)) % 2 ^ 16

/-- The pipeline-relevant global mutable state of `video_esp32.cpp`:
the two dirty bitmaps, the full-redraw flag, the palette and its change flag. -/
structure VideoState where
  write_dirty_tiles : TileBitmap
  dirty_tiles : TileBitmap
  force_full_update : Bool
  palette_rgb565 : List Nat
  palette_changed : Bool
deriving DecidableEq, Repr

/-- Embedding of `ESP32_monitor_desc::set_palette(pal, num)`: converts `min num 256` entries
of the byte array `pal` (RGB triples) into `palette_rgb565`, sets
`palette_changed`, and sets `force_full_update`. -/
def set_palette (s : VideoState) (pal : List Nat) (num : Nat) : VideoState :=
  let p := (List.range (min num 256)).foldl (fun p i =>
    let r := pal.getD (i * 3 + 0) 0
    let g := pal.getD (i * 3 + 1) 0
    let b := pal.getD (i * 3 + 2) 0
    p.set i (rgb888_to_rgb565 r g b)) s.palette_rgb565
  { s with palette_rgb565 := p, palette_changed := true, force_full_update := true }

/-- One draining step of `videoRenderTaskOptimized` (the code between the
palette snapshot and the render call): `dirty_tile_count = collectWriteDirtyTiles();`
then, if `force_full_update` is set, overwrite every render-side word with
`0xFFFFFFFF`, report `TOTAL_TILES` and clear the flag.  Returns the new state
and the `dirty_tile_count` for the cycle. -/
def drainStep (s : VideoState) : VideoState × Nat :=
  let res := collectWriteDirtyTiles s.write_dirty_tiles
  let s := { s with write_dirty_tiles := res.1, dirty_tiles := res.2.1 }
  let count := res.2.2
  if s.force_full_update then
    ({ s with dirty_tiles := TileBitmap.ones, force_full_update := false }, TOTAL_TILES)
  else
    (s, count)

/-! ### Producer mark operations lifted to sequences and to the state -/

/-- One producer dirty-marking call. -/
inductive MarkOp where
  | off (offset : Nat)
  | rng (offset size : Nat)
deriving DecidableEq, Repr

/-- Apply one mark call to the write-side bitmap. -/
def applyMarkOp (cache : VideoCache) (op : MarkOp) (bm : TileBitmap) : TileBitmap :=
  match op with
  | .off offset => VideoMarkDirtyOffset cache offset bm
  | .rng offset size => VideoMarkDirtyRange cache offset size bm

/-- Apply a finite sequence of mark calls, first to last. -/
def applyMarkOps (cache : VideoCache) (ops : List MarkOp) (bm : TileBitmap) : TileBitmap :=
  ops.foldl (fun b op => applyMarkOp cache op b) bm

/-- A mark call lifted to the pipeline state: both source functions write only
the `write_dirty_tiles` bitmap. -/
def applyMarkOpS (cache : VideoCache) (op : MarkOp) (s : VideoState) : VideoState :=
  { s with write_dirty_tiles := applyMarkOp cache op s.write_dirty_tiles }

/-- A sequence of producer mark calls on the pipeline state. -/
def applyMarkOpsS (cache : VideoCache) (ops : List MarkOp) (s : VideoState) : VideoState :=
  ops.foldl (fun s op => applyMarkOpS cache op s) s

/-- The tile indices a mark call touches: the bits it sets when starting from
an all-clear write-side bitmap. -/
def touches (cache : VideoCache) (op : MarkOp) (t : Nat) : Prop :=
  tileTest (applyMarkOp cache op TileBitmap.zero) t = true

/-! ### Packed pixel decoding -/

/-- Embedding of `decodePackedRow(src, dst, width, depth)` as the list of decoded 8-bit
indices: MSB-first sub-byte unpacking for 1/2/4-bit depths, `memcpy` of
`width` bytes for 8-bit. -/
def decodePackedRow (src : List Nat) (width : Nat) (depth : video_depth) : List Nat :=
  match depth with
  | VDEPTH_1BIT =>
    (List.range width).map (fun x => (src.getD (x / 8) 0 >>> (7 - x % 8)) &&& 0x01)
  | VDEPTH_2BIT =>
    (List.range width).map (fun x => (src.getD (x / 4) 0 >>> (6 - (x % 4) * 2)) &&& 0x03)
  | VDEPTH_4BIT =>
    (List.range width).map (fun x => (src.getD (x / 2) 0 >>> (if x % 2 = 0 then 4 else 0)) &&& 0x0F)
  | VDEPTH_8BIT =>
    src.take width

/-- The four-way `switch` shared verbatim by `getPackedPixel` and the packed
branch of `snapshotTile`: extract the pixel at column `x` of an already
row-based buffer. -/
def packedExtract (depth : video_depth) (row : List Nat) (x : Nat) : Nat :=
  match depth with
  | VDEPTH_1BIT => (row.getD (x / 8) 0 >>> (7 - x % 8)) &&& 0x01
  | VDEPTH_2BIT => (row.getD (x / 4) 0 >>> (6 - (x % 4) * 2)) &&& 0x03
  | VDEPTH_4BIT => (row.getD (x / 2) 0 >>> (if x % 2 = 0 then 4 else 0)) &&& 0x0F
  | VDEPTH_8BIT => row.getD x 0

/-- Embedding of `getPackedPixel(fb, x, y, bpr, depth)`: `row = fb + y * bpr`, then the
per-depth extraction `switch`. -/
def getPackedPixel (fb : List Nat) (x y : Nat) (bpr : Nat) (depth : video_depth) : Nat :=
  packedExtract depth (fb.drop (y * bpr)) x

/-! ### Tile snapshot and compositor -/

/-- Row-major concatenation of `n` buffer rows produced by `f` (the row loops
of `snapshotTile` / `renderTileFromSnapshot` / `renderFrameStreaming`, whose
destination pointer advances by one full row per iteration). -/
def concatRows : Nat → (Nat → List Nat) → List Nat
  | 0, _ => []
  | n + 1, f => concatRows n f ++ f n

/-- Embedding of `snapshotTile(src_buffer, tile_x, tile_y, snapshot)`: copies one tile out
of the frame buffer as 8-bit indices; `memcpy` per row for 8-bit, per-pixel
unpacking (the same `switch` as `getPackedPixel`) for packed depths. -/
def snapshotTile (fb : List Nat) (depth : video_depth) (bpr : Nat) (tile_x tile_y : Nat) : List Nat :=
  let src_start_x := tile_x * TILE_WIDTH
  let src_start_y := tile_y * TILE_HEIGHT
  if depth = VDEPTH_8BIT then
    concatRows TILE_HEIGHT (fun row =>
      ((fb.drop ((src_start_y + row) * bpr + src_start_x)).take TILE_WIDTH))
  else
    concatRows TILE_HEIGHT (fun row =>
      (List.range TILE_WIDTH).map (fun x =>
        packedExtract depth (fb.drop ((src_start_y + row) * bpr)) (src_start_x + x)))

/-- The inner pixel loop shared by `renderTileFromSnapshot` and
`renderFrameStreaming`: look each 8-bit index up in the palette
(`local_palette[... & 0xFF]`) and write the colour twice (2x horizontal
scaling).  The four-pixel unrolling of the source is a bandwidth optimization
with this same result (both row widths, 40 and 640, are divisible by 4, so the
scalar tail loop computes the identical values). -/
def renderRowPix (pal : List Nat) (pix : List Nat) : List Nat :=
  pix.foldr (fun p acc =>
    let c := pal.getD (p &&& 0xFF) 0
    c :: c :: acc) []

/-- Embedding of `renderTileFromSnapshot(snapshot, local_palette, out_buffer)`: each of the
40 tile rows yields two identical output rows of 80 RGB565 pixels
(`dst_row1` duplicates `dst_row0`, and `out` advances by two rows). -/
def renderTileFromSnapshot (snapshot pal : List Nat) : List Nat :=
  concatRows TILE_HEIGHT (fun row =>
    let r := renderRowPix pal ((snapshot.drop (row * TILE_WIDTH)).take TILE_WIDTH)
    r ++ r)

/-! ### Display transfers -/

/-- One `setAddrWindow(x, y, w, h)` followed by `writePixels(buf, w*h)`
(or the DMA variant): the buffer fills the window row-major. -/
structure PushOp where
  x : Nat
  y : Nat
  w : Nat
  h : Nat
  buf : List Nat

/-- The display after one transfer: coordinates inside the window read the
pushed buffer, everything else keeps its previous contents. -/
def applyPush (disp : Nat → Nat → Nat) (p : PushOp) : Nat → Nat → Nat :=
  fun X Y =>
    if p.x ≤ X ∧ X < p.x + p.w ∧ p.y ≤ Y ∧ Y < p.y + p.h then
      p.buf.getD ((Y - p.y) * p.w + (X - p.x)) 0
    else disp X Y

/-- Replay a list of transfers in order on an initial display. -/
def applyPushes (disp : Nat → Nat → Nat) (ps : List PushOp) : Nat → Nat → Nat :=
  ps.foldl applyPush disp

/-- Embedding of `renderAndPushDirtyTiles(src_buffer, local_palette)` as the list of display
transfers it performs: for every tile, in row-major order, skip it unless
`isTileDirty(tile_idx)`, otherwise snapshot, render and push an 80×80 block at
the display position of the tile.  The function reads `dirty_tiles` through
`isTileDirty` and never writes it. -/
def renderAndPushDirtyTiles (fb pal : List Nat) (depth : video_depth) (bpr : Nat)
    (dirty : TileBitmap) : List PushOp :=
  (List.range TILES_Y).flatMap (fun ty =>
    (List.range TILES_X).filterMap (fun tx =>
      if tileTest dirty (ty * TILES_X + tx) then
        some { x := tx * (TILE_WIDTH * PIXEL_SCALE), y := ty * (TILE_HEIGHT * PIXEL_SCALE),
               w := TILE_WIDTH * PIXEL_SCALE, h := TILE_HEIGHT * PIXEL_SCALE,
               buf := renderTileFromSnapshot (snapshotTile fb depth bpr tx ty) pal }
      else none))

/-- The render/present stage lifted to the pipeline state: the source function
reads `dirty_tiles` but stores to no pipeline global, so the state is returned
unchanged alongside the transfers. -/
def renderAndPushStep (s : VideoState) (fb pal : List Nat) (depth : video_depth) (bpr : Nat) :
    VideoState × List PushOp :=
  (s, renderAndPushDirtyTiles fb pal depth bpr s.dirty_tiles)

/-- One four-row band of `renderFrameStreaming`: rows `mac_y .. mac_y+3` are
decoded (packed depths) or used in place (8-bit), palette-mapped and 2x-scaled
into 8 display rows of the streaming row buffer.  The `y >= MAC_SCREEN_HEIGHT`
break never fires because the height 360 is divisible by 4. -/
def bandBuffer (fb pal : List Nat) (depth : video_depth) (bpr : Nat) (mac_y : Nat) : List Nat :=
  concatRows 4 (fun row_offset =>
    let y := mac_y + row_offset
    let pixel_row :=
      if depth = VDEPTH_8BIT then fb.drop (y * bpr)
      else decodePackedRow (fb.drop (y * bpr)) MAC_SCREEN_WIDTH depth
    let r := renderRowPix pal (pixel_row.take MAC_SCREEN_WIDTH)
    r ++ r)

/-- Embedding of `renderFrameStreaming(src_buffer, local_palette)` as the list of display
transfers it performs: 90 bands of 4 Mac rows, each pushed at display row
`mac_y * PIXEL_SCALE` as a full-width window of `STREAMING_ROW_COUNT` rows.
The double-buffered DMA (render into one row buffer while the other is in
flight, `waitDMA` before reuse) only overlaps the transfers; the data of each band
still lands at its own window. -/
def renderFrameStreaming (fb pal : List Nat) (depth : video_depth) (bpr : Nat) : List PushOp :=
  (List.range 90).map (fun k =>
    { x := 0, y := (4 * k) * PIXEL_SCALE, w := DISPLAY_WIDTH, h := STREAMING_ROW_COUNT,
      buf := bandBuffer fb pal depth bpr (4 * k) })

/-! ### Definitions following the words of the specification (for the refinement
claims; these are deliberately written from the spec, not from the source) -/

/-- Written from the spec for claim C2: byte `offset` represents pixels
`(offset mod bytesPerRow) * pixelsPerByte` through `+ pixelsPerByte - 1` of row
`offset / bytesPerRow`; tile `t` is touched exactly when the tile-row of `t` is the
tile-row of the pixel row and the pixel-column range `[40*(t%16), 40*(t%16)+39]` of `t`
intersects that pixel range. -/
def spec_byteTouchesTile (depth : video_depth) (offset t : Nat) : Bool :=
  let bpr := modeBytesPerRow depth
  let ppb := (cacheFor depth).current_pixels_per_byte
  let row := offset / bpr
  let pixFirst := (offset % bpr) * ppb
  let pixLast := pixFirst + ppb - 1
  decide (t / TILES_X = row / TILE_HEIGHT) &&
  decide (TILE_WIDTH * (t % TILES_X) ≤ pixLast) &&
  decide (pixFirst ≤ TILE_WIDTH * (t % TILES_X) + (TILE_WIDTH - 1))

/-- Written from the spec for claim C7: pixel `x` is extracted from byte
`x / pixelsPerByte`, highest bits first — the sub-byte field of width
`8 / pixelsPerByte` bits at position `(ppb - 1 - x % ppb)` fields from the
bottom. -/
def spec_decodePixel (depth : video_depth) (src : List Nat) (x : Nat) : Nat :=
  let ppb := (cacheFor depth).current_pixels_per_byte
  let bits := 8 / ppb
  (src.getD (x / ppb) 0 >>> ((ppb - 1 - x % ppb) * bits)) &&& (2 ^ bits - 1)

/-! ## Bitmap infrastructure lemmas -/

theorem TileBitmap.get_setWord (bm : TileBitmap) (i j w : Nat) :
    (bm.setWord i w).get j = if j = i ∧ i < 5 then w else bm.get j := by
  cases bm
  rcases i with _|_|_|_|_|i <;> rcases j with _|_|_|_|_|j <;>
    simp +arith [TileBitmap.setWord, TileBitmap.get]

theorem tileTest_setTileBit (bm : TileBitmap) (t1 t2 : Nat) (h : t1 < 160) :
    tileTest (setTileBit bm t1) t2 = (tileTest bm t2 || decide (t1 = t2)) := by
  unfold tileTest setTileBit
  rw [TileBitmap.get_setWord]
  by_cases hw : t2 / 32 = t1 / 32 ∧ t1 / 32 < 5
  · rw [if_pos hw, hw.1, Nat.testBit_or, Nat.one_shiftLeft, Nat.testBit_two_pow]
    have hd : decide (t1 % 32 = t2 % 32) = decide (t1 = t2) := by
      simp only [decide_eq_decide]; omega
    rw [hd]
  · rw [if_neg hw]
    have : ¬(t1 = t2) := by
      intro h2; subst h2; exact hw ⟨rfl, by omega⟩
    simp [this]

theorem tileTest_orBM (a b : TileBitmap) (t : Nat) :
    tileTest (orBM a b) t = (tileTest a t || tileTest b t) := by
  cases a; cases b
  unfold tileTest orBM TileBitmap.get
  split_ifs <;> simp [Nat.testBit_or]

theorem orBM_zero_right (a : TileBitmap) : orBM a TileBitmap.zero = a := by
  cases a; simp [orBM, TileBitmap.zero]

theorem orBM_zero_left (a : TileBitmap) : orBM TileBitmap.zero a = a := by
  cases a; simp [orBM, TileBitmap.zero]

theorem orBM_assoc (a b c : TileBitmap) : orBM (orBM a b) c = orBM a (orBM b c) := by
  cases a; cases b; cases c; simp [orBM, Nat.lor_assoc]

theorem orBM_comm (a b : TileBitmap) : orBM a b = orBM b a := by
  cases a; cases b; simp [orBM, Nat.lor_comm]

theorem orBM_self (a : TileBitmap) : orBM a a = a := by
  cases a; simp [orBM]

/-- Lemma: `setTileBit` is a bitwise OR with the single-bit mask. -/
theorem setTileBit_eq_or (bm : TileBitmap) (t : Nat) :
    setTileBit bm t = orBM bm (setTileBit TileBitmap.zero t) := by
  cases bm
  unfold setTileBit TileBitmap.setWord TileBitmap.get orBM TileBitmap.zero
  split_ifs <;> simp [Nat.lor_assoc]

/-- Any fold whose step is an OR-with-mask is itself an OR-with-mask. -/
theorem foldl_or_mask (f : TileBitmap → Nat → TileBitmap)
    (hf : ∀ b i, f b i = orBM b (f TileBitmap.zero i)) :
    ∀ (l : List Nat) (b : TileBitmap), l.foldl f b = orBM b (l.foldl f TileBitmap.zero) := by
  intro l
  induction l with
  | nil => intro b; simp [orBM_zero_right]
  | cons a l ih =>
    intro b
    simp only [List.foldl_cons]
    rw [ih (f b a), ih (f TileBitmap.zero a), hf b a, orBM_assoc]

/-! ## The mark functions are OR-with-mask operations -/

/-- Lemma: `VideoMarkDirtyOffset` only ORs a fixed (bitmap-independent) mask into the
write-side bitmap. -/
theorem mark_off_or (cache : VideoCache) (offset : Nat) (bm : TileBitmap) :
    VideoMarkDirtyOffset cache offset bm
      = orBM bm (VideoMarkDirtyOffset cache offset TileBitmap.zero) := by
  simp only [VideoMarkDirtyOffset]
  split_ifs
  all_goals
    first
      | rw [orBM_zero_right]
      | (refine foldl_or_mask _ ?_ _ _
         intro b i
         split_ifs with ht
         · exact setTileBit_eq_or b _
         · rw [orBM_zero_right])

/-- Lemma: `VideoMarkDirtyRange` only ORs a fixed (bitmap-independent) mask into the
write-side bitmap. -/
theorem mark_rng_or (cache : VideoCache) (offset size : Nat) (bm : TileBitmap) :
    VideoMarkDirtyRange cache offset size bm
      = orBM bm (VideoMarkDirtyRange cache offset size TileBitmap.zero) := by
  simp only [VideoMarkDirtyRange]
  split_ifs
  all_goals
    first
      | rw [orBM_zero_right]
      | exact mark_off_or cache offset bm
      | rw [mark_off_or cache offset bm, mark_off_or cache _ (orBM bm _),
            mark_off_or cache _ (VideoMarkDirtyOffset cache offset TileBitmap.zero), orBM_assoc]
      | (refine foldl_or_mask _ ?_ _ _
         intro b j
         refine foldl_or_mask _ ?_ _ _
         intro b i
         exact setTileBit_eq_or b _)

/-- Both producer mark calls only OR a fixed mask into the write bitmap. -/
theorem applyMarkOp_or (cache : VideoCache) (op : MarkOp) (bm : TileBitmap) :
    applyMarkOp cache op bm = orBM bm (applyMarkOp cache op TileBitmap.zero) := by
  cases op with
  | off offset => exact mark_off_or cache offset bm
  | rng offset size => exact mark_rng_or cache offset size bm

/-- Bit-level characterization of one mark call. -/
theorem tileTest_applyMarkOp (cache : VideoCache) (op : MarkOp) (bm : TileBitmap) (t : Nat) :
    tileTest (applyMarkOp cache op bm) t
      = (tileTest bm t || tileTest (applyMarkOp cache op TileBitmap.zero) t) := by
  rw [applyMarkOp_or, tileTest_orBM]

/-- Bit-level characterization of a sequence of mark calls. -/
theorem tileTest_applyMarkOps (cache : VideoCache) (ops : List MarkOp) (bm : TileBitmap) (t : Nat) :
    tileTest (applyMarkOps cache ops bm) t
      = (tileTest bm t || ops.any (fun op => tileTest (applyMarkOp cache op TileBitmap.zero) t)) := by
  induction ops generalizing bm with
  | nil => simp [applyMarkOps]
  | cons op ops ih =>
    simp only [applyMarkOps, List.foldl_cons, List.any_cons]
    rw [show (ops.foldl (fun b op => applyMarkOp cache op b) (applyMarkOp cache op bm))
          = applyMarkOps cache ops (applyMarkOp cache op bm) from rfl, ih,
        tileTest_applyMarkOp]
    cases tileTest bm t <;> simp

/-! ## Further helper lemmas -/

theorem tileTest_zero (t : Nat) : tileTest TileBitmap.zero t = false := by
  unfold tileTest TileBitmap.zero TileBitmap.get
  split_ifs <;> simp

theorem tileTest_ones (t : Nat) (h : t < 160) : tileTest TileBitmap.ones t = true := by
  have h5 : t / 32 < 5 := by omega
  unfold tileTest TileBitmap.ones TileBitmap.get
  split_ifs <;>
    first
      | omega
      | (rw [show (0xFFFFFFFF : Nat) = 2 ^ 32 - 1 by norm_num, Nat.testBit_two_pow_sub_one]
         simp only [decide_eq_true_eq]
         omega)

theorem popcount_zero : popcount 0 = 0 := by
  unfold popcount
  simp

/-- A fold whose step preserves a given tile bit preserves it overall. -/
theorem tileTest_foldl_pres (t : Nat) (f : TileBitmap → Nat → TileBitmap) (l : List Nat)
    (hf : ∀ b : TileBitmap, ∀ i ∈ l, tileTest (f b i) t = tileTest b t) :
    ∀ bm, tileTest (l.foldl f bm) t = tileTest bm t := by
  induction l with
  | nil => intro bm; rfl
  | cons a l ih =>
    intro bm
    rw [List.foldl_cons, ih (fun b i hi => hf b i (by simp [hi]))]
    exact hf bm a (by simp)

/-- Setting the bit of a different tile leaves a given bit alone. -/
theorem tileTest_setTileBit_ne (bm : TileBitmap) (t1 t2 : Nat) (h : t1 < 160) (hne : t1 ≠ t2) :
    tileTest (setTileBit bm t1) t2 = tileTest bm t2 := by
  rw [tileTest_setTileBit bm t1 t2 h, decide_eq_false hne, Bool.or_false]

/-- Lemma: `VideoMarkDirtyOffset` never touches a bit at tile position 144 or above. -/
theorem mark_off_high (cache : VideoCache) (offset t : Nat) (ht : 144 ≤ t) (bm : TileBitmap) :
    tileTest (VideoMarkDirtyOffset cache offset bm) t = tileTest bm t := by
  simp only [VideoMarkDirtyOffset, frame_buffer_size, MAC_SCREEN_WIDTH, MAC_SCREEN_HEIGHT,
    TILE_WIDTH, TILE_HEIGHT, TILES_X, TILES_Y, TOTAL_TILES]
  split_ifs
  any_goals rfl
  all_goals
    refine tileTest_foldl_pres t _ _ ?_ bm
    intro b i hi
    simp only [List.mem_range] at hi
    split_ifs with hidx
    · exact tileTest_setTileBit_ne _ _ _ (by omega) (by omega)
    · rfl

/-- Lemma: `VideoMarkDirtyRange` never touches a bit at tile position 144 or above. -/
theorem mark_rng_high (cache : VideoCache) (offset size t : Nat) (ht : 144 ≤ t) (bm : TileBitmap) :
    tileTest (VideoMarkDirtyRange cache offset size bm) t = tileTest bm t := by
  simp only [VideoMarkDirtyRange, frame_buffer_size, MAC_SCREEN_WIDTH, MAC_SCREEN_HEIGHT,
    TILE_WIDTH, TILE_HEIGHT, TILES_X, TILES_Y, TOTAL_TILES]
  split_ifs
  any_goals rfl
  any_goals rw [mark_off_high cache _ t ht, mark_off_high cache _ t ht]
  any_goals rw [mark_off_high cache _ t ht]
  all_goals
    refine tileTest_foldl_pres t _ _ ?_ bm
    intro b j hj
    simp only [List.mem_range] at hj
    refine tileTest_foldl_pres t _ _ ?_ b
    intro b2 i hi
    simp only [List.mem_range] at hi
    exact tileTest_setTileBit_ne _ _ _ (by omega) (by omega)

/-- Producer mark calls leave the force-full-redraw flag alone. -/
theorem applyMarkOpsS_force (cache : VideoCache) (ops : List MarkOp) (s : VideoState) :
    (applyMarkOpsS cache ops s).force_full_update = s.force_full_update := by
  induction ops generalizing s with
  | nil => rfl
  | cons op ops ih => exact ih (applyMarkOpS cache op s)

/-! ## Claim theorems (first batch) -/

/-- C10: dirty marking is monotone, idempotent and commutative: both
`VideoMarkDirtyOffset` and `VideoMarkDirtyRange` (any `MarkOp`) only OR a
fixed mask into the write-side bitmap — marking twice equals marking once,
marks commute, the result of two marks is the initial bitmap ORed with each
individual effect of each call, and no set bit is ever cleared. -/
theorem claim_C10_mark_algebra (cache : VideoCache) (op1 op2 : MarkOp) (bm : TileBitmap) (t : Nat) :
    applyMarkOp cache op1 (applyMarkOp cache op1 bm) = applyMarkOp cache op1 bm
  ∧ applyMarkOp cache op2 (applyMarkOp cache op1 bm) = applyMarkOp cache op1 (applyMarkOp cache op2 bm)
  ∧ applyMarkOp cache op2 (applyMarkOp cache op1 bm)
      = orBM bm (orBM (applyMarkOp cache op1 TileBitmap.zero) (applyMarkOp cache op2 TileBitmap.zero))
  ∧ (tileTest bm t = true → tileTest (applyMarkOp cache op1 bm) t = true) := by
  refine ⟨?_, ?_, ?_, ?_⟩
  · rw [applyMarkOp_or cache op1 bm, applyMarkOp_or cache op1 (orBM bm _), orBM_assoc, orBM_self]
  · rw [applyMarkOp_or cache op1 bm, applyMarkOp_or cache op2 (orBM bm _),
        applyMarkOp_or cache op2 bm, applyMarkOp_or cache op1 (orBM bm _),
        orBM_assoc, orBM_assoc, orBM_comm (applyMarkOp cache op1 TileBitmap.zero)]
  · rw [applyMarkOp_or cache op1 bm, applyMarkOp_or cache op2 (orBM bm _), orBM_assoc]
  · intro h
    rw [tileTest_applyMarkOp, h, Bool.true_or]

/-- C10 witness. -/
theorem claim_C10_mark_algebra_witness :
    tileTest (TileBitmap.mk 1 0 0 0 0) 0 = true ∧
    tileTest (applyMarkOp (cacheFor video_depth.VDEPTH_8BIT) (MarkOp.off 0) (TileBitmap.mk 1 0 0 0 0)) 0 = true :=
  ⟨by decide,
   (claim_C10_mark_algebra (cacheFor video_depth.VDEPTH_8BIT) (MarkOp.off 0) (MarkOp.off 0)
      (TileBitmap.mk 1 0 0 0 0) 0).2.2.2 (by decide)⟩

/-- C1: no-loss draining.  For any sequence of producer mark calls since the
previous drain (write-side bitmap starting all-clear), one
`collectWriteDirtyTiles` leaves every write-side word zero, produces a
render-side bitmap in which every tile touched by those calls is set, and
returns the popcount summed over all drained words. -/
theorem claim_C1_no_loss_draining (cache : VideoCache) (ops : List MarkOp) (t : Nat)
    (h : ∃ op ∈ ops, touches cache op t) :
    tileTest (collectWriteDirtyTiles (applyMarkOps cache ops TileBitmap.zero)).2.1 t = true
  ∧ (collectWriteDirtyTiles (applyMarkOps cache ops TileBitmap.zero)).1 = TileBitmap.zero
  ∧ (collectWriteDirtyTiles (applyMarkOps cache ops TileBitmap.zero)).2.2
      = popcount (applyMarkOps cache ops TileBitmap.zero).w0
      + popcount (applyMarkOps cache ops TileBitmap.zero).w1
      + popcount (applyMarkOps cache ops TileBitmap.zero).w2
      + popcount (applyMarkOps cache ops TileBitmap.zero).w3
      + popcount (applyMarkOps cache ops TileBitmap.zero).w4 := by
  refine ⟨?_, rfl, rfl⟩
  have hdrained : (collectWriteDirtyTiles (applyMarkOps cache ops TileBitmap.zero)).2.1
      = applyMarkOps cache ops TileBitmap.zero := rfl
  rw [hdrained, tileTest_applyMarkOps, tileTest_zero, Bool.false_or, List.any_eq_true]
  obtain ⟨op, hmem, htouch⟩ := h
  exact ⟨op, hmem, htouch⟩

/-- C1 witness: a single `VideoMarkDirtyOffset(0)` at 8-bit depth touches tile
0, and one drain reports it. -/
theorem claim_C1_no_loss_draining_witness :
    (∃ op ∈ [MarkOp.off 0], touches (cacheFor video_depth.VDEPTH_8BIT) op 0) ∧
    tileTest (collectWriteDirtyTiles
      (applyMarkOps (cacheFor video_depth.VDEPTH_8BIT) [MarkOp.off 0] TileBitmap.zero)).2.1 0 = true :=
  ⟨⟨MarkOp.off 0, by simp, by unfold touches; decide⟩,
   (claim_C1_no_loss_draining (cacheFor video_depth.VDEPTH_8BIT) [MarkOp.off 0] 0
      ⟨MarkOp.off 0, by simp, by unfold touches; decide⟩).1⟩

/-- C3: a palette change forces a full redraw.  After `set_palette`, whatever
mark calls the producer makes in between, the next drain reports the full tile
count 144 and treats every tile as dirty. -/
theorem claim_C3_palette_full_redraw (cache : VideoCache) (s : VideoState) (pal : List Nat)
    (num : Nat) (ops : List MarkOp) :
    (drainStep (applyMarkOpsS cache ops (set_palette s pal num))).2 = 144
  ∧ (drainStep (applyMarkOpsS cache ops (set_palette s pal num))).1.dirty_tiles
      = TileBitmap.ones := by
  have hforce : (applyMarkOpsS cache ops (set_palette s pal num)).force_full_update = true := by
    rw [applyMarkOpsS_force]
    rfl
  constructor
  · simp [drainStep, hforce, TOTAL_TILES, TILES_X, TILES_Y]
  · simp [drainStep, hforce]

/-- C4: idempotent full redraw.  With the force-full-redraw flag set and no
producer writes, one drain step reports the total tile count with every
render-side bit set, and a second immediate drain step reports zero. -/
theorem claim_C4_idempotent_full_redraw (s : VideoState) (h : s.force_full_update = true) :
    (drainStep s).2 = 144
  ∧ (drainStep s).1.dirty_tiles = TileBitmap.ones
  ∧ (drainStep (drainStep s).1).2 = 0 := by
  refine ⟨?_, ?_, ?_⟩
  · simp [drainStep, h, TOTAL_TILES, TILES_X, TILES_Y]
  · simp [drainStep, h]
  · simp [drainStep, h, collectWriteDirtyTiles, TileBitmap.zero, popcount_zero]

/-- C4 witness. -/
theorem claim_C4_idempotent_full_redraw_witness :
    (drainStep { write_dirty_tiles := TileBitmap.zero, dirty_tiles := TileBitmap.zero,
                 force_full_update := true, palette_rgb565 := [], palette_changed := false }).2 = 144 :=
  (claim_C4_idempotent_full_redraw
    { write_dirty_tiles := TileBitmap.zero, dirty_tiles := TileBitmap.zero,
      force_full_update := true, palette_rgb565 := [], palette_changed := false } rfl).1

/-- C6: out-of-range writes are silently ignored with all pipeline state
unchanged — for `offset ≥ frame_buffer_size` both mark calls return without
modifying anything — and a range reaching past the end of the frame buffer is
clamped to the buffer bound before marking. -/
theorem claim_C6_out_of_range (cache : VideoCache) (s : VideoState) (bm : TileBitmap)
    (offset size off2 sz2 : Nat) :
    (offset ≥ frame_buffer_size → applyMarkOpS cache (MarkOp.off offset) s = s)
  ∧ (offset ≥ frame_buffer_size → applyMarkOpS cache (MarkOp.rng offset size) s = s)
  ∧ (off2 < frame_buffer_size → off2 + sz2 < 2 ^ 32 →
      VideoMarkDirtyRange cache off2 sz2 bm
        = VideoMarkDirtyRange cache off2 (min sz2 (frame_buffer_size - off2)) bm) := by
  refine ⟨?_, ?_, ?_⟩
  · intro h
    have hw : VideoMarkDirtyOffset cache offset s.write_dirty_tiles = s.write_dirty_tiles := by
      simp only [VideoMarkDirtyOffset, if_pos h]
    simp [applyMarkOpS, applyMarkOp, hw]
  · intro h
    have hw : VideoMarkDirtyRange cache offset size s.write_dirty_tiles = s.write_dirty_tiles := by
      simp only [VideoMarkDirtyRange, if_pos h]
    simp [applyMarkOpS, applyMarkOp, hw]
  · intro h1 h2
    have e1 : (off2 + sz2) % 2 ^ 32 = off2 + sz2 := Nat.mod_eq_of_lt h2
    have e2 : (off2 + min sz2 (frame_buffer_size - off2)) % 2 ^ 32
        = off2 + min sz2 (frame_buffer_size - off2) := by
      refine Nat.mod_eq_of_lt ?_
      simp only [frame_buffer_size, MAC_SCREEN_WIDTH, MAC_SCREEN_HEIGHT] at h1 ⊢
      omega
    have hsize : (if (off2 + sz2) % 2 ^ 32 > frame_buffer_size
          then frame_buffer_size - off2 else sz2)
        = (if (off2 + min sz2 (frame_buffer_size - off2)) % 2 ^ 32 > frame_buffer_size
          then frame_buffer_size - off2 else min sz2 (frame_buffer_size - off2)) := by
      rw [e1, e2]
      split_ifs <;> omega
    simp only [VideoMarkDirtyRange]
    rw [hsize]

/-- C6 witness. -/
theorem claim_C6_out_of_range_witness :
    (230400 ≥ frame_buffer_size
      ∧ applyMarkOpS (cacheFor VDEPTH_8BIT) (MarkOp.off 230400)
          { write_dirty_tiles := TileBitmap.zero, dirty_tiles := TileBitmap.zero,
            force_full_update := false, palette_rgb565 := [], palette_changed := false }
        = { write_dirty_tiles := TileBitmap.zero, dirty_tiles := TileBitmap.zero,
            force_full_update := false, palette_rgb565 := [], palette_changed := false })
  ∧ (230000 < frame_buffer_size ∧ 230000 + 1000 < 2 ^ 32
      ∧ VideoMarkDirtyRange (cacheFor VDEPTH_8BIT) 230000 1000 TileBitmap.zero
        = VideoMarkDirtyRange (cacheFor VDEPTH_8BIT) 230000
            (min 1000 (frame_buffer_size - 230000)) TileBitmap.zero) :=
  ⟨⟨by decide,
    (claim_C6_out_of_range (cacheFor VDEPTH_8BIT)
      { write_dirty_tiles := TileBitmap.zero, dirty_tiles := TileBitmap.zero,
        force_full_update := false, palette_rgb565 := [], palette_changed := false }
      TileBitmap.zero 230400 0 0 0).1 (by decide)⟩,
   ⟨by decide, by decide,
    (claim_C6_out_of_range (cacheFor VDEPTH_8BIT)
      { write_dirty_tiles := TileBitmap.zero, dirty_tiles := TileBitmap.zero,
        force_full_update := false, palette_rgb565 := [], palette_changed := false }
      TileBitmap.zero 0 0 230000 1000).2.2 (by decide) (by decide)⟩⟩

/-- C9 (implicit): the frame buffer size is the depth-independent constant
`640 * 360 = 230400`; neither mark call ever touches a dirty-bitmap bit at a
tile index of 144 or above; and for any depth an offset whose derived row is
at least 360 is silently ignored by `VideoMarkDirtyOffset` even when the
offset lies inside the allocated buffer. -/
theorem claim_C9_bitmap_bounds (d : video_depth) (offset size t : Nat) (bm : TileBitmap) :
    frame_buffer_size = 230400
  ∧ (144 ≤ t → tileTest (VideoMarkDirtyOffset (cacheFor d) offset bm) t = tileTest bm t)
  ∧ (144 ≤ t → tileTest (VideoMarkDirtyRange (cacheFor d) offset size bm) t = tileTest bm t)
  ∧ (offset < frame_buffer_size → 360 ≤ offset / modeBytesPerRow d →
      VideoMarkDirtyOffset (cacheFor d) offset bm = bm) := by
  refine ⟨rfl, fun ht => mark_off_high _ _ _ ht bm, fun ht => mark_rng_high _ _ _ _ ht bm, ?_⟩
  intro h1 h2
  cases d <;>
    (simp only [cacheFor, updateVideoStateCache, modeBytesPerRow, frame_buffer_size,
       MAC_SCREEN_WIDTH, MAC_SCREEN_HEIGHT] at h1 h2 ⊢
     simp only [VideoMarkDirtyOffset, frame_buffer_size, MAC_SCREEN_WIDTH, MAC_SCREEN_HEIGHT]
     rw [if_neg (by omega), if_pos (by omega)])

/-- C9 witness: at 1-bit depth, offset 29000 (derived row 362) is inside the
230400-byte buffer but ignored; and bit 150 is never touched. -/
theorem claim_C9_bitmap_bounds_witness :
    (144 ≤ 150
      ∧ tileTest (VideoMarkDirtyOffset (cacheFor VDEPTH_1BIT) 0 TileBitmap.zero) 150
          = tileTest TileBitmap.zero 150)
  ∧ (29000 < frame_buffer_size ∧ 360 ≤ 29000 / modeBytesPerRow VDEPTH_1BIT
      ∧ VideoMarkDirtyOffset (cacheFor VDEPTH_1BIT) 29000 TileBitmap.zero = TileBitmap.zero) :=
  ⟨⟨by decide, (claim_C9_bitmap_bounds VDEPTH_1BIT 0 0 150 TileBitmap.zero).2.1 (by decide)⟩,
   ⟨by decide, by decide,
    (claim_C9_bitmap_bounds VDEPTH_1BIT 29000 0 150 TileBitmap.zero).2.2.2 (by decide) (by decide)⟩⟩

/-- Bit-level characterization of the guarded tile-marking fold of
`VideoMarkDirtyOffset`. -/
theorem tileTest_mark_fold (e : Nat → Nat) (l : List Nat) (t : Nat) (he : ∀ i ∈ l, e i < 160) :
    ∀ bm, tileTest (l.foldl (fun b i => if e i < 144 then setTileBit b (e i) else b) bm) t
      = (tileTest bm t || l.any (fun i => decide (e i < 144) && decide (e i = t))) := by
  induction l with
  | nil => intro bm; simp
  | cons a l ih =>
    intro bm
    rw [List.foldl_cons, List.any_cons, ih (fun i hi => he i (by simp [hi]))]
    by_cases ha : e a < 144
    · rw [if_pos ha, tileTest_setTileBit bm (e a) t (he a (by simp))]
      simp [ha, Bool.or_assoc]
    · rw [if_neg ha]
      simp [ha]

/-- A tile-column iteration from `ps / 40` to `pe / 40` on tile-row `ty` hits
tile `t` exactly when `t` sits on tile-row `ty` and the 40-pixel column
range of `t` intersects the pixel range `[ps, pe]`. -/
theorem interval_hit (ps pe ty t : Nat) (hy : ty ≤ 8) (hpe : pe ≤ 639) :
    (List.range (pe / 40 + 1 - ps / 40)).any
        (fun i => decide (ty * 16 + (ps / 40 + i) < 144) && decide (ty * 16 + (ps / 40 + i) = t))
      = (decide (t / 16 = ty) && decide (40 * (t % 16) ≤ pe) && decide (ps ≤ 40 * (t % 16) + 39)) := by
  rw [Bool.eq_iff_iff]
  simp only [List.any_eq_true, List.mem_range, Bool.and_eq_true, decide_eq_true_eq]
  constructor
  · rintro ⟨i, hi, hlt, heq⟩
    omega
  · rintro ⟨⟨ha, hb⟩, hc⟩
    refine ⟨t % 16 - ps / 40, ?_, ?_, ?_⟩ <;> omega

/-- C2: dirty-mark-to-tile mapping.  For every in-range offset (inside the
frame buffer and with derived row below 360) and every depth,
`VideoMarkDirtyOffset` sets exactly the write-side bits of the tiles whose
pixel-column range intersects the pixels the byte represents; in particular at
8-bit depth offset `77*640+123` marks only tile 19, and at 2-bit depth offset
10 marks only the tile at column 1 of row 0. -/
theorem claim_C2_mark_to_tile (d : video_depth) (offset : Nat) (bm : TileBitmap) (t : Nat)
    (h1 : offset < frame_buffer_size)
    (h2 : offset / modeBytesPerRow d < 360) :
    tileTest (VideoMarkDirtyOffset (cacheFor d) offset bm) t
      = (tileTest bm t || spec_byteTouchesTile d offset t)
  ∧ VideoMarkDirtyOffset (cacheFor VDEPTH_8BIT) (77 * 640 + 123) TileBitmap.zero
      = TileBitmap.mk (1 <<< 19) 0 0 0 0
  ∧ VideoMarkDirtyOffset (cacheFor VDEPTH_2BIT) 10 TileBitmap.zero
      = TileBitmap.mk (1 <<< 1) 0 0 0 0 := by
  refine ⟨?_, by decide, by decide⟩
  cases d <;>
    (simp only [modeBytesPerRow] at h2
     simp only [VideoMarkDirtyOffset, spec_byteTouchesTile, cacheFor, updateVideoStateCache,
       modeBytesPerRow, frame_buffer_size, MAC_SCREEN_WIDTH, MAC_SCREEN_HEIGHT, TILE_WIDTH,
       TILE_HEIGHT, TILES_X, TILES_Y, TOTAL_TILES] at h1 ⊢
     split_ifs
     any_goals (exfalso; omega)
     rw [tileTest_mark_fold _ _ t (by intro i hi; simp only [List.mem_range] at hi; omega) bm]
     rw [interval_hit _ _ _ t (by omega) (by omega)])

/-- C2 witness. -/
theorem claim_C2_mark_to_tile_witness :
    (77 * 640 + 123 < frame_buffer_size ∧ (77 * 640 + 123) / modeBytesPerRow VDEPTH_8BIT < 360)
  ∧ tileTest (VideoMarkDirtyOffset (cacheFor VDEPTH_8BIT) (77 * 640 + 123) TileBitmap.zero) 19
      = (tileTest TileBitmap.zero 19 || spec_byteTouchesTile VDEPTH_8BIT (77 * 640 + 123) 19) :=
  ⟨⟨by decide, by decide⟩,
   (claim_C2_mark_to_tile VDEPTH_8BIT (77 * 640 + 123) TileBitmap.zero 19
      (by decide) (by decide)).1⟩

/-! ## List indexing helpers -/

theorem getD_range_map (f : Nat → Nat) (n i d : Nat) (h : i < n) :
    ((List.range n).map f).getD i d = f i := by
  rw [List.getD_eq_getElem?_getD, List.getElem?_map, List.getElem?_range h]
  rfl

theorem getD_take (l : List Nat) (n i d : Nat) (h : i < n) :
    (l.take n).getD i d = l.getD i d := by
  simp [List.getD_eq_getElem?_getD, List.getElem?_take, h]

theorem getD_drop (l : List Nat) (n i d : Nat) :
    (l.drop n).getD i d = l.getD (n + i) d := by
  simp [List.getD_eq_getElem?_getD, List.getElem?_drop]

theorem getD_lt_of_all_lt (l : List Nat) (i bound : Nat) (hb : 0 < bound)
    (h : ∀ b ∈ l, b < bound) : l.getD i 0 < bound := by
  by_cases hi : i < l.length
  · rw [List.getD_eq_getElem l 0 hi]
    exact h _ (List.getElem_mem hi)
  · rw [List.getD_eq_default l 0 (by omega)]
    exact hb

/-- C7: the PixelFormat decoder contract.  `decodePackedRow` produces one
8-bit index per pixel with MSB-first sub-byte unpacking (pixel `x` comes from
byte `x / pixelsPerByte`, highest bits first), is an identity copy of `width`
bytes at 8-bit depth, and the single-pixel variant `getPackedPixel` agrees
with element `x` of the decoded row `y`, for every `x < width` and every
depth. -/
theorem claim_C7_decoder_contract (d : video_depth) (src fb : List Nat) (width x y bpr : Nat)
    (hx : x < width) (hsrc : width ≤ src.length) (hbytes : ∀ b ∈ src, b < 256) :
    (decodePackedRow src width d).getD x 0 = spec_decodePixel d src x
  ∧ decodePackedRow src width VDEPTH_8BIT = src.take width
  ∧ (decodePackedRow src width d).length = width
  ∧ (∀ v ∈ decodePackedRow src width d, v < 256)
  ∧ getPackedPixel fb x y bpr d = (decodePackedRow (fb.drop (y * bpr)) width d).getD x 0 := by
  refine ⟨?_, rfl, ?_, ?_, ?_⟩
  · cases d
    · rw [show decodePackedRow src width VDEPTH_1BIT
          = (List.range width).map (fun x => (src.getD (x / 8) 0 >>> (7 - x % 8)) &&& 0x01) from rfl,
        getD_range_map _ _ _ _ hx]
      simp only [spec_decodePixel, cacheFor, updateVideoStateCache, modeBytesPerRow]
      rw [show 7 - x % 8 = (8 - 1 - x % 8) * 1 from by omega]
      norm_num
    · rw [show decodePackedRow src width VDEPTH_2BIT
          = (List.range width).map (fun x => (src.getD (x / 4) 0 >>> (6 - (x % 4) * 2)) &&& 0x03) from rfl,
        getD_range_map _ _ _ _ hx]
      simp only [spec_decodePixel, cacheFor, updateVideoStateCache, modeBytesPerRow]
      rw [show 6 - x % 4 * 2 = (4 - 1 - x % 4) * 2 from by omega]
      norm_num
    · rw [show decodePackedRow src width VDEPTH_4BIT
          = (List.range width).map
              (fun x => (src.getD (x / 2) 0 >>> (if x % 2 = 0 then 4 else 0)) &&& 0x0F) from rfl,
        getD_range_map _ _ _ _ hx]
      simp only [spec_decodePixel, cacheFor, updateVideoStateCache, modeBytesPerRow]
      rw [show (if x % 2 = 0 then 4 else 0) = (2 - 1 - x % 2) * 4 from by
        rcases Nat.mod_two_eq_zero_or_one x with h | h <;> simp [h]]
      norm_num
    · rw [show decodePackedRow src width VDEPTH_8BIT = src.take width from rfl,
        getD_take _ _ _ _ hx]
      simp only [spec_decodePixel, cacheFor, updateVideoStateCache, modeBytesPerRow]
      rw [show ((8 : Nat) / 1) = 8 from rfl, Nat.div_one,
        show (1 - 1 - x % 1) * 8 = 0 from by omega, Nat.shiftRight_zero,
        Nat.and_pow_two_sub_one_eq_mod,
        Nat.mod_eq_of_lt (getD_lt_of_all_lt src x 256 (by omega) hbytes)]
  · cases d <;> simp [decodePackedRow, hsrc]
  · cases d <;>
      (intro v hv
       simp only [decodePackedRow, List.mem_map, List.mem_range] at hv)
    case VDEPTH_1BIT =>
      obtain ⟨i, _, rfl⟩ := hv
      calc _ ≤ 0x01 := Nat.and_le_right
        _ < 256 := by omega
    case VDEPTH_2BIT =>
      obtain ⟨i, _, rfl⟩ := hv
      calc _ ≤ 0x03 := Nat.and_le_right
        _ < 256 := by omega
    case VDEPTH_4BIT =>
      obtain ⟨i, _, rfl⟩ := hv
      calc _ ≤ 0x0F := Nat.and_le_right
        _ < 256 := by omega
    case VDEPTH_8BIT =>
      exact hbytes v (List.take_subset _ _ hv)
  · cases d
    · rw [show decodePackedRow (fb.drop (y * bpr)) width VDEPTH_1BIT
          = (List.range width).map
              (fun x => ((fb.drop (y * bpr)).getD (x / 8) 0 >>> (7 - x % 8)) &&& 0x01) from rfl,
        getD_range_map _ _ _ _ hx]
      rfl
    · rw [show decodePackedRow (fb.drop (y * bpr)) width VDEPTH_2BIT
          = (List.range width).map
              (fun x => ((fb.drop (y * bpr)).getD (x / 4) 0 >>> (6 - (x % 4) * 2)) &&& 0x03) from rfl,
        getD_range_map _ _ _ _ hx]
      rfl
    · rw [show decodePackedRow (fb.drop (y * bpr)) width VDEPTH_4BIT
          = (List.range width).map
              (fun x => ((fb.drop (y * bpr)).getD (x / 2) 0
                >>> (if x % 2 = 0 then 4 else 0)) &&& 0x0F) from rfl,
        getD_range_map _ _ _ _ hx]
      rfl
    · rw [show decodePackedRow (fb.drop (y * bpr)) width VDEPTH_8BIT
          = (fb.drop (y * bpr)).take width from rfl,
        getD_take _ _ _ _ hx]
      rfl

/-- C7 witness. -/
theorem claim_C7_decoder_contract_witness :
    (1 < 2 ∧ 2 ≤ [0xAB, 0xCD].length ∧ (∀ b ∈ [0xAB, 0xCD], b < 256))
  ∧ (decodePackedRow [0xAB, 0xCD] 2 VDEPTH_4BIT).getD 1 0 = spec_decodePixel VDEPTH_4BIT [0xAB, 0xCD] 1 :=
  ⟨⟨by decide, by decide, by decide⟩,
   (claim_C7_decoder_contract VDEPTH_4BIT [0xAB, 0xCD] [] 2 1 0 0
      (by decide) (by decide) (by decide)).1⟩

/-- C5 counterexample: with only tile 0 dirty on the render side, tile 0 is
consumed (pushed at display position (0,0)) by `renderAndPushDirtyTiles`, yet
after the render step its render-side bit is still set — the claim that every
consumed render-side bit is clear after the call is false. -/
theorem claim_C5_counterexample :
    tileTest (renderAndPushStep
        { write_dirty_tiles := TileBitmap.zero, dirty_tiles := TileBitmap.mk 1 0 0 0 0,
          force_full_update := false, palette_rgb565 := [], palette_changed := false }
        (List.replicate 230400 0) (List.replicate 256 0) VDEPTH_8BIT 640).1.dirty_tiles 0 = true
  ∧ ((renderAndPushStep
        { write_dirty_tiles := TileBitmap.zero, dirty_tiles := TileBitmap.mk 1 0 0 0 0,
          force_full_update := false, palette_rgb565 := [], palette_changed := false }
        (List.replicate 230400 0) (List.replicate 256 0) VDEPTH_8BIT 640).2.map
      (fun p => (p.x, p.y))).head? = some (0, 0) := by
  constructor
  · decide
  · rfl

/-- C5 amended: `renderAndPushDirtyTiles` reads the render-side bits of the
tiles it composites and pushes, but never clears them — the pipeline state
after the render step is the state before it, every dirty tile below 144 is
pushed at its tile-aligned display position with its bit still set afterwards,
and the render-side bitmap is only replaced wholesale at the next drain, which
overwrites each render-side word with the drained write-side word. -/
theorem claim_C5_amended (s : VideoState) (fb pal : List Nat) (d : video_depth) (bpr t : Nat)
    (ht : t < 144) (hdirty : tileTest s.dirty_tiles t = true) :
    (renderAndPushStep s fb pal d bpr).1 = s
  ∧ (∃ p ∈ (renderAndPushStep s fb pal d bpr).2,
      p.x = t % 16 * 80 ∧ p.y = t / 16 * 80)
  ∧ tileTest (renderAndPushStep s fb pal d bpr).1.dirty_tiles t = true
  ∧ (∀ w : TileBitmap, (collectWriteDirtyTiles w).2.1 = w) := by
  refine ⟨rfl, ?_, hdirty, fun w => rfl⟩
  have hidx : t / 16 * 16 + t % 16 = t := by omega
  refine ⟨{ x := t % 16 * (TILE_WIDTH * PIXEL_SCALE), y := t / 16 * (TILE_HEIGHT * PIXEL_SCALE),
            w := TILE_WIDTH * PIXEL_SCALE, h := TILE_HEIGHT * PIXEL_SCALE,
            buf := renderTileFromSnapshot (snapshotTile fb d bpr (t % 16) (t / 16)) pal },
          ?_, rfl, rfl⟩
  rw [show (renderAndPushStep s fb pal d bpr).2
      = renderAndPushDirtyTiles fb pal d bpr s.dirty_tiles from rfl,
    renderAndPushDirtyTiles, List.mem_flatMap]
  refine ⟨t / 16, List.mem_range.mpr (by simp only [TILES_Y]; omega), ?_⟩
  rw [List.mem_filterMap]
  refine ⟨t % 16, List.mem_range.mpr (by simp only [TILES_X]; omega), ?_⟩
  rw [show TILES_X = 16 from rfl, hidx, if_pos hdirty]

/-- C5 amended witness. -/
theorem claim_C5_amended_witness :
    (0 < 144 ∧ tileTest (TileBitmap.mk 1 0 0 0 0) 0 = true)
  ∧ tileTest (renderAndPushStep
      { write_dirty_tiles := TileBitmap.zero, dirty_tiles := TileBitmap.mk 1 0 0 0 0,
        force_full_update := false, palette_rgb565 := [], palette_changed := false }
      [] [] VDEPTH_8BIT 640).1.dirty_tiles 0 = true :=
  ⟨⟨by decide, by decide⟩,
   (claim_C5_amended
      { write_dirty_tiles := TileBitmap.zero, dirty_tiles := TileBitmap.mk 1 0 0 0 0,
        force_full_update := false, palette_rgb565 := [], palette_changed := false }
      [] [] VDEPTH_8BIT 640 0 (by decide) (by decide)).2.2.1⟩

/-! ## Buffer indexing lemmas for the two render paths -/

theorem concatRows_length (n L : Nat) (f : Nat → List Nat) (hL : ∀ r < n, (f r).length = L) :
    (concatRows n f).length = n * L := by
  induction n with
  | zero => simp [concatRows]
  | succ n ih =>
    rw [concatRows, List.length_append, ih (fun r hr => hL r (by omega)), hL n (by omega)]
    ring

theorem concatRows_getD (n L i : Nat) (f : Nat → List Nat) (hL : ∀ r < n, (f r).length = L)
    (hi : i < n * L) :
    (concatRows n f).getD i 0 = (f (i / L)).getD (i % L) 0 := by
  induction n with
  | zero => omega
  | succ n ih =>
    rw [concatRows]
    have hlen : (concatRows n f).length = n * L :=
      concatRows_length n L f (fun r hr => hL r (by omega))
    have hexp : (n + 1) * L = n * L + L := by ring
    by_cases hlt : i < n * L
    · rw [List.getD_append _ _ _ _ (by rw [hlen]; omega)]
      exact ih (fun r hr => hL r (by omega)) hlt
    · rw [List.getD_append_right _ _ _ _ (by rw [hlen]; omega), hlen]
      have hdiv : i / L = n := Nat.div_eq_of_lt_le (by omega) (by omega)
      have h4 := Nat.div_add_mod i L
      rw [hdiv] at h4
      have hcomm : n * L = L * n := Nat.mul_comm n L
      have hmod : i % L = i - n * L := by omega
      rw [hdiv, hmod]

theorem renderRowPix_length (pal pix : List Nat) : (renderRowPix pal pix).length = 2 * pix.length := by
  induction pix with
  | nil => rfl
  | cons p ps ih =>
    have hcons : renderRowPix pal (p :: ps)
        = pal.getD (p &&& 0xFF) 0 :: pal.getD (p &&& 0xFF) 0 :: renderRowPix pal ps := rfl
    rw [hcons, List.length_cons, List.length_cons, ih, List.length_cons]
    ring

theorem renderRowPix_getD (pal pix : List Nat) (i : Nat) (hi : i < 2 * pix.length) :
    (renderRowPix pal pix).getD i 0 = pal.getD (pix.getD (i / 2) 0 &&& 0xFF) 0 := by
  induction pix generalizing i with
  | nil => simp at hi
  | cons p ps ih =>
    have hcons : renderRowPix pal (p :: ps)
        = pal.getD (p &&& 0xFF) 0 :: pal.getD (p &&& 0xFF) 0 :: renderRowPix pal ps := rfl
    rw [hcons]
    rcases i with _ | _ | j
    · rfl
    · rfl
    · rw [List.getD_cons_succ, List.getD_cons_succ,
        ih j (by rw [List.length_cons] at hi; omega),
        show (j + 1 + 1) / 2 = j / 2 + 1 from by omega, List.getD_cons_succ]

/-- Lookup in a doubled row (`r ++ r` of a fixed-length row). -/
theorem getD_append_self (r : List Nat) (L j : Nat) (hr : r.length = L) (hj : j < 2 * L) :
    (r ++ r).getD j 0 = r.getD (j % L) 0 := by
  by_cases h : j < L
  · rw [List.getD_append _ _ _ _ (by omega), Nat.mod_eq_of_lt h]
  · have hmod : j % L = j - L := by
      rw [Nat.mod_eq_sub_mod (by omega), Nat.mod_eq_of_lt (by omega)]
    rw [List.getD_append_right _ _ _ _ (by omega), hr, hmod]

/-- One pixel of a tile snapshot is the corresponding `getPackedPixel` of the
frame buffer. -/
theorem snapshotTile_getD (fb : List Nat) (d : video_depth) (bpr tx ty row xl : Nat)
    (hrow : row < 40) (hxl : xl < 40)
    (hfb : ∀ r < 40, (ty * 40 + r) * bpr + tx * 40 + 40 ≤ fb.length) :
    (snapshotTile fb d bpr tx ty).getD (row * 40 + xl) 0
      = getPackedPixel fb (tx * 40 + xl) (ty * 40 + row) bpr d := by
  unfold snapshotTile
  simp only [TILE_WIDTH, TILE_HEIGHT]
  by_cases h8 : d = VDEPTH_8BIT
  · rw [if_pos h8, concatRows_getD 40 40 _ _
        (by
          intro r hr
          rw [List.length_take, List.length_drop]
          have := hfb r hr
          omega)
        (by omega)]
    have e1 : (row * 40 + xl) / 40 = row := by omega
    have e2 : (row * 40 + xl) % 40 = xl := by omega
    rw [e1, e2, getD_take _ _ _ _ hxl, getD_drop, h8]
    have hg : getPackedPixel fb (tx * 40 + xl) (ty * 40 + row) bpr VDEPTH_8BIT
        = fb.getD ((ty * 40 + row) * bpr + (tx * 40 + xl)) 0 := by
      show (fb.drop ((ty * 40 + row) * bpr)).getD (tx * 40 + xl) 0
          = fb.getD ((ty * 40 + row) * bpr + (tx * 40 + xl)) 0
      exact getD_drop ..
    rw [hg]
    congr 1
    ring
  · rw [if_neg h8, concatRows_getD 40 40 _ _ (by intro r hr; simp) (by omega)]
    have e1 : (row * 40 + xl) / 40 = row := by omega
    have e2 : (row * 40 + xl) % 40 = xl := by omega
    rw [e1, e2, getD_range_map _ _ _ _ hxl]
    rfl

/-- One pixel of a composited tile buffer, as a palette lookup of the snapshot. -/
theorem renderTile_getD (snap pal : List Nat) (r c : Nat) (hr : r < 80) (hc : c < 80)
    (hsnap : snap.length = 1600) :
    (renderTileFromSnapshot snap pal).getD (r * 80 + c) 0
      = pal.getD (snap.getD (r / 2 * 40 + c / 2) 0 &&& 0xFF) 0 := by
  unfold renderTileFromSnapshot
  simp only [TILE_WIDTH, TILE_HEIGHT]
  rw [concatRows_getD 40 160 _ _
      (by
        intro rr hrr
        rw [List.length_append, renderRowPix_length, List.length_take, List.length_drop, hsnap]
        omega)
      (by omega)]
  have e1 : (r * 80 + c) / 160 = r / 2 := by omega
  have e2 : (r * 80 + c) % 160 = r % 2 * 80 + c := by omega
  rw [e1, e2, getD_append_self _ 80 _
      (by
        rw [renderRowPix_length, List.length_take, List.length_drop, hsnap]
        omega)
      (by omega)]
  have e3 : (r % 2 * 80 + c) % 80 = c := by omega
  rw [e3, renderRowPix_getD _ _ _
      (by
        rw [List.length_take, List.length_drop, hsnap]
        omega),
    getD_take _ _ _ _ (by omega), getD_drop]

theorem decodePackedRow_length_packed (src : List Nat) (w : Nat) (d : video_depth)
    (h8 : d ≠ VDEPTH_8BIT) : (decodePackedRow src w d).length = w := by
  cases d
  · simp [decodePackedRow]
  · simp [decodePackedRow]
  · simp [decodePackedRow]
  · exact absurd rfl h8

/-- Element `x` of a decoded row is the packed-pixel extraction at column `x`. -/
theorem decode_getD_extract (row : List Nat) (d : video_depth) (x : Nat) (hx : x < 640) :
    (decodePackedRow row 640 d).getD x 0 = packedExtract d row x := by
  cases d
  · exact getD_range_map _ _ _ _ hx
  · exact getD_range_map _ _ _ _ hx
  · exact getD_range_map _ _ _ _ hx
  · exact getD_take _ _ _ _ hx

/-- One pixel of a streaming band buffer, as a palette lookup of the packed
pixel it upscales. -/
theorem bandBuffer_getD (fb pal : List Nat) (d : video_depth) (mac_y rd c : Nat)
    (hrd : rd < 8) (hc : c < 1280) (hy : mac_y + 3 < 360) (hfb : 230400 ≤ fb.length) :
    (bandBuffer fb pal d (modeBytesPerRow d) mac_y).getD (rd * 1280 + c) 0
      = pal.getD (getPackedPixel fb (c / 2) (mac_y + rd / 2) (modeBytesPerRow d) d &&& 0xFF) 0 := by
  unfold bandBuffer
  simp only [MAC_SCREEN_WIDTH]
  have hplen : ∀ ro, ro < 4 →
      640 ≤ (if d = VDEPTH_8BIT then fb.drop ((mac_y + ro) * modeBytesPerRow d)
        else decodePackedRow (fb.drop ((mac_y + ro) * modeBytesPerRow d)) 640 d).length := by
    intro ro hro
    by_cases h8 : d = VDEPTH_8BIT
    · rw [if_pos h8, List.length_drop, h8]
      simp only [modeBytesPerRow]
      omega
    · rw [if_neg h8, decodePackedRow_length_packed _ _ _ h8]
  rw [concatRows_getD 4 2560 _ _
      (by
        intro ro hro
        rw [List.length_append, renderRowPix_length, List.length_take]
        have := hplen ro hro
        omega)
      (by omega)]
  have e1 : (rd * 1280 + c) / 2560 = rd / 2 := by omega
  have e2 : (rd * 1280 + c) % 2560 = rd % 2 * 1280 + c := by omega
  rw [e1, e2, getD_append_self _ 1280 _
      (by
        rw [renderRowPix_length, List.length_take]
        have := hplen (rd / 2) (by omega)
        omega)
      (by omega)]
  have e3 : (rd % 2 * 1280 + c) % 1280 = c := by omega
  rw [e3, renderRowPix_getD _ _ _
      (by
        rw [List.length_take]
        have := hplen (rd / 2) (by omega)
        omega),
    getD_take _ _ _ _ (by omega)]
  have hpix : (if d = VDEPTH_8BIT then fb.drop ((mac_y + rd / 2) * modeBytesPerRow d)
        else decodePackedRow (fb.drop ((mac_y + rd / 2) * modeBytesPerRow d)) 640 d).getD (c / 2) 0
      = getPackedPixel fb (c / 2) (mac_y + rd / 2) (modeBytesPerRow d) d := by
    by_cases h8 : d = VDEPTH_8BIT
    · rw [if_pos h8, h8]
      rfl
    · rw [if_neg h8, decode_getD_extract _ _ _ (by omega)]
      rfl
  rw [hpix]

/-! ## Display replay lemmas -/

theorem applyPushes_append (disp : Nat → Nat → Nat) (l1 l2 : List PushOp) :
    applyPushes disp (l1 ++ l2) = applyPushes (applyPushes disp l1) l2 :=
  List.foldl_append ..

theorem applyPushes_miss (X Y : Nat) (ps : List PushOp) (disp : Nat → Nat → Nat)
    (h : ∀ p ∈ ps, ¬(p.x ≤ X ∧ X < p.x + p.w ∧ p.y ≤ Y ∧ Y < p.y + p.h)) :
    applyPushes disp ps X Y = disp X Y := by
  induction ps generalizing disp with
  | nil => rfl
  | cons p ps ih =>
    rw [show applyPushes disp (p :: ps) = applyPushes (applyPush disp p) ps from rfl,
      ih _ (fun q hq => h q (by simp [hq]))]
    unfold applyPush
    rw [if_neg (h p (by simp))]

theorem applyPush_hit (disp : Nat → Nat → Nat) (p : PushOp) (X Y : Nat)
    (h : p.x ≤ X ∧ X < p.x + p.w ∧ p.y ≤ Y ∧ Y < p.y + p.h) :
    applyPush disp p X Y = p.buf.getD ((Y - p.y) * p.w + (X - p.x)) 0 := by
  unfold applyPush
  rw [if_pos h]

theorem filterMap_if_all (f : Nat → PushOp) (c : Nat → Bool) (l : List Nat)
    (hc : ∀ x ∈ l, c x = true) :
    l.filterMap (fun x => if c x then some (f x) else none) = l.map f := by
  induction l with
  | nil => rfl
  | cons a l ih =>
    rw [List.filterMap_cons, List.map_cons, if_pos (hc a (by simp)),
      ih (fun x hx => hc x (by simp [hx]))]

theorem flatMap_congr_mem (l : List Nat) (f g : Nat → List PushOp) (h : ∀ x ∈ l, f x = g x) :
    l.flatMap f = l.flatMap g := by
  induction l with
  | nil => rfl
  | cons a l ih =>
    rw [List.flatMap_cons, List.flatMap_cons, h a (by simp),
      ih (fun x hx => h x (by simp [hx]))]

theorem tile_row_bound (d : video_depth) (ty r tx : Nat) (hty : ty ≤ 8) (hr : r < 40)
    (htx : tx ≤ 15) :
    (ty * 40 + r) * modeBytesPerRow d + tx * 40 + 40 ≤ 230400 := by
  have h1 : ty * 40 + r ≤ 359 := by omega
  have h2 : modeBytesPerRow d ≤ 640 := by cases d <;> simp [modeBytesPerRow]
  have h3 : (ty * 40 + r) * modeBytesPerRow d ≤ 359 * 640 := Nat.mul_le_mul h1 h2
  omega

theorem snapshotTile_length (fb : List Nat) (d : video_depth) (bpr tx ty : Nat)
    (hfb : ∀ r < 40, (ty * 40 + r) * bpr + tx * 40 + 40 ≤ fb.length) :
    (snapshotTile fb d bpr tx ty).length = 1600 := by
  unfold snapshotTile
  simp only [TILE_WIDTH, TILE_HEIGHT]
  by_cases h8 : d = VDEPTH_8BIT
  · rw [if_pos h8, concatRows_length 40 40 _
      (by
        intro r hr
        rw [List.length_take, List.length_drop]
        have := hfb r hr
        omega)]
  · rw [if_neg h8, concatRows_length 40 40 _ (by intro r hr; simp)]

theorem map_range_decomp (g : Nat → PushOp) (k m : Nat) :
    (List.range (k + 1 + m)).map g
      = (List.range k).map g ++ [g k] ++ (List.range m).map (fun j => g (k + 1 + j)) := by
  rw [List.range_add, List.map_append, List.range_succ, List.map_append, List.map_map]
  simp only [List.map_cons, List.map_nil, List.append_assoc]
  rfl

theorem flatMap_range_decomp (g : Nat → List PushOp) (k m : Nat) :
    (List.range (k + 1 + m)).flatMap g
      = (List.range k).flatMap g ++ g k ++ (List.range m).flatMap (fun j => g (k + 1 + j)) := by
  rw [List.range_add, List.flatMap_append, List.range_succ, List.flatMap_append, List.flatMap_map]
  simp only [List.flatMap_cons, List.flatMap_nil, List.append_nil, List.append_assoc]

/-- The full-frame streaming path writes, at every display coordinate, the
palette colour of the packed pixel it upscales. -/
theorem stream_display (d : video_depth) (fb pal : List Nat) (disp : Nat → Nat → Nat) (X Y : Nat)
    (hX : X < 1280) (hY : Y < 720) (hfb : 230400 ≤ fb.length) :
    applyPushes disp (renderFrameStreaming fb pal d (modeBytesPerRow d)) X Y
      = pal.getD (getPackedPixel fb (X / 2) (Y / 2) (modeBytesPerRow d) d &&& 0xFF) 0 := by
  unfold renderFrameStreaming
  simp only [PIXEL_SCALE, DISPLAY_WIDTH, STREAMING_ROW_COUNT]
  rw [show (90 : Nat) = Y / 8 + 1 + (89 - Y / 8) from by omega, map_range_decomp,
    applyPushes_append, applyPushes_miss X Y _ _ (by
      intro p hp
      simp only [List.mem_map, List.mem_range] at hp
      obtain ⟨j, hj, rfl⟩ := hp
      dsimp only
      omega),
    applyPushes_append,
    show ∀ (D : Nat → Nat → Nat) (p : PushOp), applyPushes D [p] = applyPush D p
      from fun _ _ => rfl,
    applyPush_hit _ _ _ _ (by dsimp only; omega)]
  dsimp only
  rw [show (Y - 4 * (Y / 8) * 2) * 1280 + (X - 0) = Y % 8 * 1280 + X from by omega,
    bandBuffer_getD fb pal d (4 * (Y / 8)) (Y % 8) X (by omega) hX (by omega) hfb,
    show 4 * (Y / 8) + Y % 8 / 2 = Y / 2 from by omega]

/-- The tile path with every tile dirty writes, at every display coordinate,
the palette colour of the packed pixel it upscales. -/
theorem tile_display (d : video_depth) (fb pal : List Nat) (disp : Nat → Nat → Nat) (X Y : Nat)
    (hX : X < 1280) (hY : Y < 720) (hfb : 230400 ≤ fb.length) :
    applyPushes disp (renderAndPushDirtyTiles fb pal d (modeBytesPerRow d) TileBitmap.ones) X Y
      = pal.getD (getPackedPixel fb (X / 2) (Y / 2) (modeBytesPerRow d) d &&& 0xFF) 0 := by
  have hall : renderAndPushDirtyTiles fb pal d (modeBytesPerRow d) TileBitmap.ones
      = (List.range 9).flatMap (fun ty => (List.range 16).map (fun tx =>
          { x := tx * 80, y := ty * 80, w := 80, h := 80,
            buf := renderTileFromSnapshot (snapshotTile fb d (modeBytesPerRow d) tx ty) pal })) := by
    unfold renderAndPushDirtyTiles
    simp only [TILES_X, TILES_Y, TILE_WIDTH, TILE_HEIGHT, PIXEL_SCALE]
    refine flatMap_congr_mem _ _ _ ?_
    intro ty hty
    simp only [List.mem_range] at hty
    refine filterMap_if_all _ _ _ ?_
    intro tx htx
    simp only [List.mem_range] at htx
    exact tileTest_ones _ (by omega)
  rw [hall,
    show (9 : Nat) = Y / 80 + 1 + (8 - Y / 80) from by omega,
    flatMap_range_decomp,
    applyPushes_append, applyPushes_miss X Y _ _ (by
      intro p hp
      simp only [List.mem_flatMap, List.mem_map, List.mem_range] at hp
      obtain ⟨j, hj, tx, htx, rfl⟩ := hp
      dsimp only
      omega),
    applyPushes_append,
    show (16 : Nat) = X / 80 + 1 + (15 - X / 80) from by omega,
    map_range_decomp,
    applyPushes_append, applyPushes_miss X Y _ _ (by
      intro p hp
      simp only [List.mem_map, List.mem_range] at hp
      obtain ⟨j, hj, rfl⟩ := hp
      dsimp only
      omega),
    applyPushes_append,
    show ∀ (D : Nat → Nat → Nat) (p : PushOp), applyPushes D [p] = applyPush D p
      from fun _ _ => rfl,
    applyPush_hit _ _ _ _ (by dsimp only; omega)]
  dsimp only
  rw [show (Y - Y / 80 * 80) * 80 + (X - X / 80 * 80) = Y % 80 * 80 + X % 80 from by omega,
    renderTile_getD _ _ (Y % 80) (X % 80) (by omega) (by omega)
      (snapshotTile_length fb d (modeBytesPerRow d) (X / 80) (Y / 80)
        (by
          intro r hr
          have := tile_row_bound d (Y / 80) r (X / 80) (by omega) hr (by omega)
          omega)),
    snapshotTile_getD fb d (modeBytesPerRow d) (X / 80) (Y / 80) (Y % 80 / 2) (X % 80 / 2)
      (by omega) (by omega)
      (by
        intro r hr
        have := tile_row_bound d (Y / 80) r (X / 80) (by omega) hr (by omega)
        omega),
    show X / 80 * 40 + X % 80 / 2 = X / 2 from by omega,
    show Y / 80 * 40 + Y % 80 / 2 = Y / 2 from by omega]

/-- C8: tile path and streaming path are equivalent on a full screen.  For
every frame-buffer content, depth and palette, the streaming path writes the
same RGB565 value to every display coordinate `(2x+dx, 2y+dy)` as the tile
path does when all 144 tiles are dirty, and that value is
`palette[index(x, y)]` (the palette colour of the packed pixel `(x, y)`). -/
theorem claim_C8_paths_equivalent (d : video_depth) (fb pal : List Nat)
    (disp1 disp2 : Nat → Nat → Nat) (x y dx dy : Nat)
    (hx : x < 640) (hy : y < 360) (hdx : dx < 2) (hdy : dy < 2)
    (hfb : fb.length = frame_buffer_size) (hbytes : ∀ b ∈ fb, b < 256) :
    applyPushes disp1 (renderAndPushDirtyTiles fb pal d (modeBytesPerRow d) TileBitmap.ones)
        (2 * x + dx) (2 * y + dy)
      = applyPushes disp2 (renderFrameStreaming fb pal d (modeBytesPerRow d))
        (2 * x + dx) (2 * y + dy)
  ∧ applyPushes disp1 (renderAndPushDirtyTiles fb pal d (modeBytesPerRow d) TileBitmap.ones)
        (2 * x + dx) (2 * y + dy)
      = pal.getD (getPackedPixel fb x y (modeBytesPerRow d) d) 0 := by
  have hfb2 : 230400 ≤ fb.length := by rw [hfb]; decide
  have hX : 2 * x + dx < 1280 := by omega
  have hY : 2 * y + dy < 720 := by omega
  have ex : (2 * x + dx) / 2 = x := by omega
  have ey : (2 * y + dy) / 2 = y := by omega
  have ht := tile_display d fb pal disp1 (2 * x + dx) (2 * y + dy) hX hY hfb2
  have hs := stream_display d fb pal disp2 (2 * x + dx) (2 * y + dy) hX hY hfb2
  rw [ex, ey] at ht hs
  have hlt : getPackedPixel fb x y (modeBytesPerRow d) d < 256 := by
    cases d
    · exact lt_of_le_of_lt Nat.and_le_right (by norm_num)
    · exact lt_of_le_of_lt Nat.and_le_right (by norm_num)
    · exact lt_of_le_of_lt Nat.and_le_right (by norm_num)
    · refine getD_lt_of_all_lt _ _ _ (by omega) ?_
      intro b hb
      exact hbytes b (List.drop_subset _ _ hb)
  have hmask : getPackedPixel fb x y (modeBytesPerRow d) d &&& 0xFF
      = getPackedPixel fb x y (modeBytesPerRow d) d := by
    rw [show (0xFF : Nat) = 2 ^ 8 - 1 from rfl, Nat.and_pow_two_sub_one_eq_mod,
      Nat.mod_eq_of_lt hlt]
  exact ⟨by rw [ht, hs], by rw [ht, hmask]⟩

/-- C8 witness. -/
theorem claim_C8_paths_equivalent_witness :
    ((0 : Nat) < 640 ∧ (0 : Nat) < 360
      ∧ (List.replicate 230400 (0 : Nat)).length = frame_buffer_size
      ∧ (∀ b ∈ List.replicate 230400 (0 : Nat), b < 256))
  ∧ applyPushes (fun _ _ => 0)
      (renderAndPushDirtyTiles (List.replicate 230400 0) (List.replicate 256 0)
        VDEPTH_8BIT (modeBytesPerRow VDEPTH_8BIT) TileBitmap.ones) (2 * 0 + 0) (2 * 0 + 0)
    = applyPushes (fun _ _ => 0)
      (renderFrameStreaming (List.replicate 230400 0) (List.replicate 256 0)
        VDEPTH_8BIT (modeBytesPerRow VDEPTH_8BIT)) (2 * 0 + 0) (2 * 0 + 0) :=
  ⟨⟨by omega, by omega,
    by rw [List.length_replicate]; rfl,
    by
      intro b hb
      rw [List.eq_of_mem_replicate hb]
      omega⟩,
   (claim_C8_paths_equivalent VDEPTH_8BIT (List.replicate 230400 0) (List.replicate 256 0)
      (fun _ _ => 0) (fun _ _ => 0) 0 0 0 0 (by omega) (by omega) (by omega) (by omega)
      (by rw [List.length_replicate]; rfl)
      (by
        intro b hb
        rw [List.eq_of_mem_replicate hb]
        omega)).1⟩

end M5V
